import Mathlib

/-!
Verification of the UnoCloud sync engine core against its specification.

The definitions below are a shallow embedding of the TypeScript source:
* `SyncTracker.needsSync` / `upsertSyncedFile` (src/core/tracker.ts) over an
  association-list model of the unique-keyed `synced_files` SQLite table;
* `SyncEngine.syncMapping` / `dryRun` (sync engine) with the fallible remote
  environment (site/drive resolution, per-file upload) modelled as `Except`
  valued oracles;
* `GraphClient.sanitizeName`, `ensureFolder`, `uploadSmallFile` endpoint
  construction and the chunked `uploadLargeFile` loop (graph client), with
  the SHAREPOINT constants from the constants module.
-/

namespace UnoCloud

/-- Sync status of a ledger record, `SyncStatus` in src/types. -/
inductive SyncStatus where
  | pending
  | syncing
  | synced
  | failed
  | deleted
deriving DecidableEq, Repr

/-- Terminal/lifecycle status of a sync job, `JobStatus` in src/types. -/
inductive JobStatus where
  | pending
  | running
  | completed
  | failed
  | cancelled
deriving DecidableEq, Repr

/-- A row of the `synced_files` table (the fields mutable under upsert;
the composite key is kept outside the record). -/
structure SyncedFileRec where
  remotePath : String
  driveItemId : String
  fileHash : String
  fileSize : Nat
  localModifiedAt : String
  remoteModifiedAt : String
  syncedAt : String
  status : SyncStatus
  errorMessage : Option String
deriving DecidableEq, Repr

/-- Composite unique key of `synced_files`: (tenant_id, mapping_id, local_path). -/
abbrev LedgerKey := String × String × String

/-- The `synced_files` table: an association list keyed by the unique
composite key (the SQLite UNIQUE constraint keeps at most one live row per
key; lookups read the row for the key). -/
abbrev Ledger := List (LedgerKey × SyncedFileRec)

/-- Row lookup by composite key in the association-list table. -/
def findRow (led : Ledger) (k : LedgerKey) : Option SyncedFileRec :=
  match led with
  | [] => none
  | (k', r) :: rest => if k' = k then some r else findRow rest k

/-- Removal of the row(s) for a key (the UNIQUE constraint guarantees at
most one; removal-then-insert models ON CONFLICT DO UPDATE). -/
def removeRow (led : Ledger) (k : LedgerKey) : Ledger :=
  match led with
  | [] => []
  | (k', r) :: rest => if k' = k then removeRow rest k else (k', r) :: removeRow rest k

/-- `SyncTracker.getSyncedFile`: SELECT the row for the composite key. -/
def getSyncedFile (led : Ledger) (tenantId mappingId localPath : String) :
    Option SyncedFileRec :=
  findRow led (tenantId, mappingId, localPath)

/-- `SyncTracker.upsertSyncedFile`: INSERT ... ON CONFLICT(key) DO UPDATE.
All mutable fields are overwritten; modelled as replacing the row for the key. -/
def upsertSyncedFile (led : Ledger) (tenantId mappingId localPath : String)
    (rec : SyncedFileRec) : Ledger :=
  ((tenantId, mappingId, localPath), rec) :: removeRow led (tenantId, mappingId, localPath)

/-- `SyncTracker.needsSync` (src/core/tracker.ts lines 163-171): true iff no
record exists, or the prior status is `failed`, or the stored hash differs. -/
def needsSync (led : Ledger) (tenantId mappingId localPath currentHash : String) : Bool :=
  match getSyncedFile led tenantId mappingId localPath with
  | none => true
  | some existing =>
    if existing.status = SyncStatus.failed then true
    else if existing.fileHash ≠ currentHash then true
    else false

theorem findRow_removeRow (led : Ledger) (k k' : LedgerKey) (h : k' ≠ k) :
    findRow (removeRow led k) k' = findRow led k' := by
  induction led with
  | nil => rfl
  | cons e rest ih =>
    obtain ⟨ke, re⟩ := e
    by_cases he : ke = k
    · have he' : ke ≠ k' := fun hh => h (hh ▸ he)
      simp [removeRow, findRow, he, he', ih, h, Ne.symm h]
    · by_cases he2 : ke = k'
      · simp [removeRow, findRow, he, he2, h, Ne.symm h]
      · simp [removeRow, findRow, he, he2, ih]

theorem getSyncedFile_upsert (led : Ledger) (t m p t' m' p' : String) (rec : SyncedFileRec) :
    getSyncedFile (upsertSyncedFile led t m p rec) t' m' p' =
      if ((t', m', p') : LedgerKey) = (t, m, p) then some rec
      else getSyncedFile led t' m' p' := by
  unfold getSyncedFile upsertSyncedFile
  by_cases h : ((t', m', p') : LedgerKey) = (t, m, p)
  · simp [findRow, h]
  · rw [if_neg h]
    have h2 : ((t, m, p) : LedgerKey) ≠ (t', m', p') := fun hh => h hh.symm
    simp only [findRow, if_neg h2]
    exact findRow_removeRow led _ _ h

/-- C1: `needsSync` returns true if and only if no ledger record exists for
(tenant, mapping, path), or the existing record's status is `failed`, or the
stored hash differs from `currentHash`; otherwise it returns false. -/
theorem needsSync_iff (led : Ledger) (tenantId mappingId localPath currentHash : String) :
    needsSync led tenantId mappingId localPath currentHash = true ↔
      (getSyncedFile led tenantId mappingId localPath = none ∨
        ∃ rec, getSyncedFile led tenantId mappingId localPath = some rec ∧
          (rec.status = SyncStatus.failed ∨ rec.fileHash ≠ currentHash)) := by
  unfold needsSync
  cases hg : getSyncedFile led tenantId mappingId localPath with
  | none => simp
  | some rec =>
    by_cases hs : rec.status = SyncStatus.failed
    · simp [hs]
    · by_cases hh : rec.fileHash = currentHash
      · simp [hs, hh]
      · simp [hs, hh]

/-- C9: for an existing record whose status is `pending`, `syncing` or
`deleted` and whose stored hash equals the current hash, `needsSync` returns
false; only `failed` status, a hash difference, or a missing record forces a
re-upload. -/
theorem needsSync_false_of_unfailed (led : Ledger)
    (tenantId mappingId localPath currentHash : String) (rec : SyncedFileRec)
    (hrec : getSyncedFile led tenantId mappingId localPath = some rec)
    (hstat : rec.status = SyncStatus.pending ∨ rec.status = SyncStatus.syncing ∨
      rec.status = SyncStatus.deleted)
    (hhash : rec.fileHash = currentHash) :
    needsSync led tenantId mappingId localPath currentHash = false := by
  unfold needsSync
  rw [hrec]
  have hs : rec.status ≠ SyncStatus.failed := by
    rcases hstat with h | h | h <;> simp [h]
  simp [hs, hhash]

/-- Witness for C9: a concrete ledger holding a `deleted` record with an
unchanged digest is not re-synced. -/
theorem needsSync_false_of_unfailed_witness :
    needsSync
      [(("t1", "m1", "/a.txt"),
        { remotePath := "/dest/a.txt", driveItemId := "item1", fileHash := "h1",
          fileSize := 10, localModifiedAt := "2024-01-01", remoteModifiedAt := "2024-01-01",
          syncedAt := "2024-01-02", status := SyncStatus.deleted, errorMessage := none })]
      "t1" "m1" "/a.txt" "h1" = false :=
  needsSync_false_of_unfailed _ _ _ _ _ _ (by rfl) (by simp) (by rfl)

/-- A file produced by the scanner (`ScannedFile` in src/types): ephemeral
per-run inventory entry with content digest. -/
structure ScannedFile where
  path : String
  relativePath : String
  name : String
  size : Nat
  hash : String
  modifiedAt : String
deriving DecidableEq, Repr

/-- The fields of a drive item the engine reads after an upload. -/
structure ItemInfo where
  id : String
  lastModifiedDateTime : String
deriving DecidableEq, Repr

/-- A per-file error appended to the job's error list (`SyncError`). -/
structure SyncErrorRec where
  filePath : String
  error : String
  timestamp : String
  retryCount : Nat
deriving DecidableEq, Repr

/-- The job record as finalized in the `sync_jobs` table. -/
structure SyncJobRec where
  status : JobStatus
  filesTotal : Nat
  filesProcessed : Nat
  filesFailed : Nat
  bytesTotal : Nat
  bytesTransferred : Nat
  errors : List SyncErrorRec
deriving DecidableEq, Repr

/-- The remote environment a `syncMapping` run interacts with: `resolve`
covers GraphClient construction, `getSite`, `getDrive` and the destination
`ensureFolder` (failures there hit the top-level catch); `upload` covers the
per-file ensure-parent-folder, file read and upload (failures there hit the
per-file catch, identified by the thrown message); `now` is the wall clock
used for ISO timestamps. -/
structure SyncEnv where
  resolve : Except String Unit
  upload : ScannedFile → Except String ItemInfo
  now : String

/-- `path.join(destFolder, x)` as used for the remote path (no
normalization is relevant to the verified claims). -/
def joinPath (dir file : String) : String :=
  if dir = "" then file else dir ++ "/" ++ file

/-- The ledger record written on a successful upload (engine lines 322-334):
status `synced`, digest and size from the scan, remote ids from the item. -/
def successRecord (preserve : Bool) (destFolder now : String)
    (file : ScannedFile) (item : ItemInfo) : SyncedFileRec :=
  { remotePath := joinPath destFolder (if preserve then file.relativePath else file.name)
    driveItemId := item.id
    fileHash := file.hash
    fileSize := file.size
    localModifiedAt := file.modifiedAt
    remoteModifiedAt := item.lastModifiedDateTime
    syncedAt := now
    status := SyncStatus.synced
    errorMessage := none }

/-- The ledger record written on a failed upload (engine lines 351-364):
status `failed`, empty remote path and item id, original digest preserved. -/
def failureRecord (now msg : String) (file : ScannedFile) : SyncedFileRec :=
  { remotePath := ""
    driveItemId := ""
    fileHash := file.hash
    fileSize := file.size
    localModifiedAt := file.modifiedAt
    remoteModifiedAt := ""
    syncedAt := now
    status := SyncStatus.failed
    errorMessage := some msg }

/-- Phase 3 of `syncMapping`: the sequential per-file upload loop with its
running counters, error list and ledger writes. -/
def syncLoop (env : SyncEnv) (tenantId mappingId : String) (preserve : Bool)
    (destFolder : String) (files : List ScannedFile)
    (processed bytesTransferred : Nat) (errors : List SyncErrorRec) (led : Ledger) :
    Nat × Nat × List SyncErrorRec × Ledger :=
  match files with
  | [] => (processed, bytesTransferred, errors, led)
  | file :: rest =>
    match env.upload file with
    | Except.ok item =>
      let led' := upsertSyncedFile led tenantId mappingId file.path
        (successRecord preserve destFolder env.now file item)
      syncLoop env tenantId mappingId preserve destFolder rest
        (processed + 1) (bytesTransferred + file.size) errors led'
    | Except.error msg =>
      let newError : SyncErrorRec :=
        { filePath := file.path, error := msg, timestamp := env.now, retryCount := 0 }
      let errors' := errors ++ [newError]
      let led' := upsertSyncedFile led tenantId mappingId file.path
        (failureRecord env.now msg file)
      syncLoop env tenantId mappingId preserve destFolder rest
        processed bytesTransferred errors' led'

/-- `SyncEngine.syncMapping` (engine lines 233-392): scan diff, early
completion on an empty batch, site/drive resolution, sequential uploads and
job finalization. `sourcePath` is `mapping.source` (referenced by the
synthetic error of the top-level catch). -/
def syncMapping (env : SyncEnv) (tenantId mappingId : String) (preserve : Bool)
    (destFolder sourcePath : String) (scanFiles : List ScannedFile) (led : Ledger) :
    SyncJobRec × Ledger :=
  let filesToSync := scanFiles.filter
    (fun f => needsSync led tenantId mappingId f.path f.hash)
  let filesTotal := filesToSync.length
  let bytesTotal := (filesToSync.map (fun f => f.size)).sum
  if filesToSync.isEmpty then
    ({ status := JobStatus.completed, filesTotal := filesTotal, filesProcessed := 0,
       filesFailed := 0, bytesTotal := bytesTotal, bytesTransferred := 0,
       errors := [] }, led)
  else
    match env.resolve with
    | Except.error msg =>
      let syntheticError : SyncErrorRec :=
        { filePath := sourcePath, error := msg, timestamp := env.now, retryCount := 0 }
      ({ status := JobStatus.failed, filesTotal := filesTotal, filesProcessed := 0,
         filesFailed := 0, bytesTotal := bytesTotal, bytesTransferred := 0,
         errors := [syntheticError] }, led)
    | Except.ok _ =>
      let r := syncLoop env tenantId mappingId preserve destFolder filesToSync 0 0 [] led
      let errors := r.2.2.1
      let finalStatus :=
        if errors.length = 0 then JobStatus.completed
        else if errors.length < filesToSync.length then JobStatus.completed
        else JobStatus.failed
      ({ status := finalStatus, filesTotal := filesTotal, filesProcessed := r.1,
         filesFailed := errors.length, bytesTotal := bytesTotal,
         bytesTransferred := r.2.1, errors := errors }, r.2.2.2)

/-- The ledger record a file ends up with after its upload attempt. -/
def recFor (env : SyncEnv) (preserve : Bool) (destFolder : String)
    (file : ScannedFile) : SyncedFileRec :=
  match env.upload file with
  | Except.ok item => successRecord preserve destFolder env.now file item
  | Except.error msg => failureRecord env.now msg file

/-- Number of files of the batch whose upload succeeds. -/
def countOk (env : SyncEnv) (files : List ScannedFile) : Nat :=
  (files.filter (fun f => (env.upload f).isOk)).length

/-- Total bytes of the files whose upload succeeds. -/
def bytesOk (env : SyncEnv) (files : List ScannedFile) : Nat :=
  ((files.filter (fun f => (env.upload f).isOk)).map (fun f => f.size)).sum

/-- The job error entries produced by the batch, in batch order. -/
def errsOf (env : SyncEnv) (files : List ScannedFile) : List SyncErrorRec :=
  files.filterMap (fun f =>
    match env.upload f with
    | Except.ok _ => none
    | Except.error msg =>
      some { filePath := f.path, error := msg, timestamp := env.now, retryCount := 0 })

/-- The ledger after the batch: one upsert per file in order. -/
def ledgerAfter (env : SyncEnv) (tenantId mappingId : String) (preserve : Bool)
    (destFolder : String) (files : List ScannedFile) (led : Ledger) : Ledger :=
  files.foldl
    (fun acc f => upsertSyncedFile acc tenantId mappingId f.path
      (recFor env preserve destFolder f)) led

theorem syncLoop_eq (env : SyncEnv) (tenantId mappingId : String) (preserve : Bool)
    (destFolder : String) :
    ∀ (files : List ScannedFile) (processed bytes : Nat)
      (errors : List SyncErrorRec) (led : Ledger),
      syncLoop env tenantId mappingId preserve destFolder files processed bytes errors led =
        (processed + countOk env files, bytes + bytesOk env files,
          errors ++ errsOf env files,
          ledgerAfter env tenantId mappingId preserve destFolder files led) := by
  intro files
  induction files with
  | nil => intro p b e led; simp [syncLoop, countOk, bytesOk, errsOf, ledgerAfter]
  | cons f rest ih =>
    intro p b e led
    cases hu : env.upload f with
    | ok item =>
      have hok : (env.upload f).isOk = true := by rw [hu]; rfl
      simp only [syncLoop, hu, ih]
      refine Prod.ext ?_ (Prod.ext ?_ (Prod.ext ?_ ?_)) <;>
        simp [countOk, bytesOk, errsOf, ledgerAfter, List.filter_cons, hu, hok, recFor, Except.isOk, Except.toBool] <;>
        omega
    | error msg =>
      have hok : (env.upload f).isOk = false := by rw [hu]; rfl
      simp only [syncLoop, hu, ih]
      refine Prod.ext ?_ (Prod.ext ?_ (Prod.ext ?_ ?_)) <;>
        simp [countOk, bytesOk, errsOf, ledgerAfter, List.filter_cons, hu, hok, recFor, Except.isOk, Except.toBool]

theorem ledgerAfter_not_mem (env : SyncEnv) (tenantId mappingId : String)
    (preserve : Bool) (destFolder : String) :
    ∀ (files : List ScannedFile) (led : Ledger) (p : String),
      p ∉ files.map (fun f => f.path) →
      getSyncedFile (ledgerAfter env tenantId mappingId preserve destFolder files led)
          tenantId mappingId p =
        getSyncedFile led tenantId mappingId p := by
  intro files
  induction files with
  | nil => intro led p _; rfl
  | cons f rest ih =>
    intro led p hp
    simp only [List.map_cons, List.mem_cons, not_or] at hp
    simp only [ledgerAfter, List.foldl_cons]
    rw [show (rest.foldl _ _ : Ledger) = ledgerAfter env tenantId mappingId preserve
        destFolder rest (upsertSyncedFile led tenantId mappingId f.path
          (recFor env preserve destFolder f)) from rfl]
    rw [ih _ p (by simpa using hp.2)]
    rw [getSyncedFile_upsert]
    have hkne : ¬ ((tenantId, mappingId, p) : LedgerKey) = (tenantId, mappingId, f.path) := by
      intro hk
      exact hp.1 (congrArg (fun k : LedgerKey => k.2.2) hk)
    rw [if_neg hkne]

theorem ledgerAfter_mem (env : SyncEnv) (tenantId mappingId : String)
    (preserve : Bool) (destFolder : String) :
    ∀ (files : List ScannedFile) (led : Ledger) (f : ScannedFile),
      files.Pairwise (fun a b => a.path ≠ b.path) →
      f ∈ files →
      getSyncedFile (ledgerAfter env tenantId mappingId preserve destFolder files led)
          tenantId mappingId f.path =
        some (recFor env preserve destFolder f) := by
  intro files
  induction files with
  | nil => intro _ _ _ h; cases h
  | cons g rest ih =>
    intro led f hpw hf
    have hpw' := List.pairwise_cons.mp hpw
    simp only [ledgerAfter, List.foldl_cons]
    rw [show (rest.foldl _ _ : Ledger) = ledgerAfter env tenantId mappingId preserve
        destFolder rest (upsertSyncedFile led tenantId mappingId g.path
          (recFor env preserve destFolder g)) from rfl]
    rcases List.mem_cons.mp hf with rfl | hfr
    · have hnp : f.path ∉ rest.map (fun x => x.path) := by
        intro hmem
        rcases List.mem_map.mp hmem with ⟨x, hx, hxp⟩
        exact hpw'.1 x hx hxp.symm
      rw [ledgerAfter_not_mem env tenantId mappingId preserve destFolder rest _ _ hnp]
      rw [getSyncedFile_upsert, if_pos rfl]
    · exact ih _ f hpw'.2 hfr

theorem needsSync_false_of (led : Ledger) (t m p h : String) (rec : SyncedFileRec)
    (hrec : getSyncedFile led t m p = some rec)
    (hs : rec.status ≠ SyncStatus.failed) (hh : rec.fileHash = h) :
    needsSync led t m p h = false := by
  unfold needsSync
  rw [hrec]
  simp [hs, hh]

theorem needsSync_congr (l1 l2 : Ledger) (t m p h : String)
    (hl : getSyncedFile l1 t m p = getSyncedFile l2 t m p) :
    needsSync l1 t m p h = needsSync l2 t m p h := by
  unfold needsSync
  rw [hl]

theorem syncMapping_empty (env : SyncEnv) (tenantId mappingId : String) (preserve : Bool)
    (destFolder sourcePath : String) (scanFiles : List ScannedFile) (led : Ledger)
    (hemp : scanFiles.filter (fun f => needsSync led tenantId mappingId f.path f.hash) = []) :
    syncMapping env tenantId mappingId preserve destFolder sourcePath scanFiles led =
      ({ status := JobStatus.completed, filesTotal := 0, filesProcessed := 0,
         filesFailed := 0, bytesTotal := 0, bytesTransferred := 0, errors := [] }, led) := by
  unfold syncMapping
  simp [hemp]

theorem syncMapping_run (env : SyncEnv) (tenantId mappingId : String) (preserve : Bool)
    (destFolder sourcePath : String) (scanFiles : List ScannedFile) (led : Ledger)
    (hne : scanFiles.filter (fun f => needsSync led tenantId mappingId f.path f.hash) ≠ [])
    (hres : env.resolve = Except.ok ()) :
    syncMapping env tenantId mappingId preserve destFolder sourcePath scanFiles led =
      ({ status :=
           if (errsOf env (scanFiles.filter
               (fun f => needsSync led tenantId mappingId f.path f.hash))).length = 0 then
             JobStatus.completed
           else if (errsOf env (scanFiles.filter
               (fun f => needsSync led tenantId mappingId f.path f.hash))).length <
               (scanFiles.filter
                 (fun f => needsSync led tenantId mappingId f.path f.hash)).length then
             JobStatus.completed
           else JobStatus.failed,
         filesTotal := (scanFiles.filter
           (fun f => needsSync led tenantId mappingId f.path f.hash)).length,
         filesProcessed := countOk env (scanFiles.filter
           (fun f => needsSync led tenantId mappingId f.path f.hash)),
         filesFailed := (errsOf env (scanFiles.filter
           (fun f => needsSync led tenantId mappingId f.path f.hash))).length,
         bytesTotal := ((scanFiles.filter
           (fun f => needsSync led tenantId mappingId f.path f.hash)).map
             (fun f => f.size)).sum,
         bytesTransferred := bytesOk env (scanFiles.filter
           (fun f => needsSync led tenantId mappingId f.path f.hash)),
         errors := errsOf env (scanFiles.filter
           (fun f => needsSync led tenantId mappingId f.path f.hash)) },
       ledgerAfter env tenantId mappingId preserve destFolder
         (scanFiles.filter (fun f => needsSync led tenantId mappingId f.path f.hash)) led) := by
  unfold syncMapping
  have hie : (scanFiles.filter
      (fun f => needsSync led tenantId mappingId f.path f.hash)).isEmpty = false := by
    cases hF : scanFiles.filter (fun f => needsSync led tenantId mappingId f.path f.hash) with
    | nil => exact absurd hF hne
    | cons a l => rfl
  simp only [hie, Bool.false_eq_true, if_false, hres, syncLoop_eq, Nat.zero_add,
    List.nil_append]

/-- C2: if a `syncMapping` run completes with every upload succeeding, an
immediately following run over the unchanged tree finds `needsSync` false for
every scanned file and completes with zero files total (nothing uploaded,
ledger untouched). -/
theorem syncMapping_idempotent (env1 env2 : SyncEnv) (tenantId mappingId : String)
    (preserve : Bool) (destFolder sourcePath sourcePath2 : String)
    (scanFiles : List ScannedFile) (led0 : Ledger)
    (hnd : scanFiles.Pairwise (fun a b => a.path ≠ b.path))
    (hres : env1.resolve = Except.ok ())
    (hup : ∀ f ∈ scanFiles.filter
      (fun f => needsSync led0 tenantId mappingId f.path f.hash),
      (env1.upload f).isOk = true) :
    (∀ f ∈ scanFiles,
      needsSync
        (syncMapping env1 tenantId mappingId preserve destFolder sourcePath scanFiles led0).2
        tenantId mappingId f.path f.hash = false) ∧
    syncMapping env2 tenantId mappingId preserve destFolder sourcePath2 scanFiles
        (syncMapping env1 tenantId mappingId preserve destFolder sourcePath scanFiles led0).2 =
      ({ status := JobStatus.completed, filesTotal := 0, filesProcessed := 0,
         filesFailed := 0, bytesTotal := 0, bytesTransferred := 0, errors := [] },
       (syncMapping env1 tenantId mappingId preserve destFolder sourcePath scanFiles led0).2) := by
  have key : ∀ f ∈ scanFiles,
      needsSync
        (syncMapping env1 tenantId mappingId preserve destFolder sourcePath scanFiles led0).2
        tenantId mappingId f.path f.hash = false := by
    intro f hf
    by_cases hemp : scanFiles.filter
        (fun g => needsSync led0 tenantId mappingId g.path g.hash) = []
    · rw [syncMapping_empty env1 tenantId mappingId preserve destFolder sourcePath
        scanFiles led0 hemp]
      have hnp := List.filter_eq_nil_iff.mp hemp f hf
      simpa using hnp
    · rw [syncMapping_run env1 tenantId mappingId preserve destFolder sourcePath
        scanFiles led0 hemp hres]
      dsimp only
      cases hn : needsSync led0 tenantId mappingId f.path f.hash with
      | true =>
        have hfF : f ∈ scanFiles.filter
            (fun g => needsSync led0 tenantId mappingId g.path g.hash) :=
          List.mem_filter.mpr ⟨hf, hn⟩
        have hpwF : (scanFiles.filter
            (fun g => needsSync led0 tenantId mappingId g.path g.hash)).Pairwise
            (fun a b => a.path ≠ b.path) := hnd.sublist (List.filter_sublist _)
        have hok := hup f hfF
        cases hu : env1.upload f with
        | ok item =>
          apply needsSync_false_of _ tenantId mappingId f.path f.hash
            (successRecord preserve destFolder env1.now f item)
          · rw [ledgerAfter_mem env1 tenantId mappingId preserve destFolder _ led0 f hpwF hfF]
            simp [recFor, hu]
          · simp [successRecord]
          · simp [successRecord]
        | error msg =>
          rw [hu] at hok
          exact absurd hok (by simp [Except.isOk, Except.toBool])
      | false =>
        have hnp : f.path ∉ (scanFiles.filter
            (fun g => needsSync led0 tenantId mappingId g.path g.hash)).map
            (fun g => g.path) := by
          intro hmem
          rcases List.mem_map.mp hmem with ⟨x, hxF, hxp⟩
          rcases List.mem_filter.mp hxF with ⟨hx, hxn⟩
          by_cases hxf : x = f
          · subst hxf
            rw [hn] at hxn
            exact absurd hxn (by simp)
          · have hsym : Symmetric (fun a b : ScannedFile => a.path ≠ b.path) :=
              fun a b hab => Ne.symm hab
            exact (hnd.forall hsym hx hf hxf) hxp
        rw [needsSync_congr _ led0 tenantId mappingId f.path f.hash
          (ledgerAfter_not_mem env1 tenantId mappingId preserve destFolder _ led0 f.path hnp)]
        exact hn
  refine ⟨key, ?_⟩
  have h2 : scanFiles.filter (fun f =>
      needsSync
        (syncMapping env1 tenantId mappingId preserve destFolder sourcePath scanFiles led0).2
        tenantId mappingId f.path f.hash) = [] :=
    List.filter_eq_nil_iff.mpr (fun f hf => by simp [key f hf])
  exact syncMapping_empty env2 tenantId mappingId preserve destFolder sourcePath2
    scanFiles _ h2

/-- Concrete scanned file used by witnesses. -/
def fileA : ScannedFile :=
  { path := "/src/a.txt", relativePath := "a.txt", name := "a.txt", size := 10,
    hash := "h1", modifiedAt := "2024-01-01" }

/-- Second concrete scanned file used by witnesses. -/
def fileB : ScannedFile :=
  { path := "/src/b/c.txt", relativePath := "b/c.txt", name := "c.txt", size := 20,
    hash := "h2", modifiedAt := "2024-01-01" }

/-- An environment where resolution and every upload succeed. -/
def envAllOk : SyncEnv :=
  { resolve := Except.ok ()
    upload := fun _ => Except.ok { id := "item1", lastModifiedDateTime := "2024-01-02" }
    now := "2024-01-02" }

/-- An environment where the upload of `fileB` fails and all others succeed. -/
def envFailB : SyncEnv :=
  { resolve := Except.ok ()
    upload := fun f =>
      if f.path = fileB.path then Except.error "boom"
      else Except.ok { id := "item1", lastModifiedDateTime := "2024-01-02" }
    now := "2024-01-02" }

/-- Witness for C2: a successful two-file run into an empty ledger makes the
second run a zero-file completed job over the unchanged ledger. -/
theorem syncMapping_idempotent_witness :
    (∀ f ∈ [fileA, fileB],
      needsSync
        (syncMapping envAllOk ("t1") ("m1") true ("dest") ("/src") [fileA, fileB] []).2
        ("t1") ("m1") f.path f.hash = false) ∧
    syncMapping envAllOk ("t1") ("m1") true ("dest") ("/src") [fileA, fileB]
        (syncMapping envAllOk ("t1") ("m1") true ("dest") ("/src") [fileA, fileB] []).2 =
      ({ status := JobStatus.completed, filesTotal := 0, filesProcessed := 0,
         filesFailed := 0, bytesTotal := 0, bytesTransferred := 0, errors := [] },
       (syncMapping envAllOk ("t1") ("m1") true ("dest") ("/src") [fileA, fileB] []).2) :=
  syncMapping_idempotent envAllOk envAllOk ("t1") ("m1") true ("dest") ("/src") ("/src")
    [fileA, fileB] [] (by simp [List.pairwise_cons, fileA, fileB]) (by rfl) (by decide)

theorem errsOf_all_ok (env : SyncEnv) :
    ∀ (files : List ScannedFile), (∀ f ∈ files, (env.upload f).isOk = true) →
      errsOf env files = [] := by
  intro files
  induction files with
  | nil => intro _; rfl
  | cons g rest ih =>
    intro hall
    have hg := hall g (List.mem_cons_self g rest)
    cases hu : env.upload g with
    | ok item =>
      simp only [errsOf, List.filterMap_cons, hu]
      exact ih (fun f hf => hall f (List.mem_cons_of_mem g hf))
    | error msg =>
      rw [hu] at hg
      exact absurd hg (by simp [Except.isOk, Except.toBool])

theorem countOk_all_ok (env : SyncEnv) :
    ∀ (files : List ScannedFile), (∀ f ∈ files, (env.upload f).isOk = true) →
      countOk env files = files.length := by
  intro files
  induction files with
  | nil => intro _; rfl
  | cons g rest ih =>
    intro hall
    have hg := hall g (List.mem_cons_self g rest)
    simp only [countOk, List.filter_cons, hg, if_true, List.length_cons]
    have := ih (fun f hf => hall f (List.mem_cons_of_mem g hf))
    simp only [countOk] at this
    rw [this]

theorem single_failure_shape (env : SyncEnv) (k : ScannedFile) (emsg : String)
    (hfail : env.upload k = Except.error emsg) :
    ∀ (files : List ScannedFile),
      files.Pairwise (fun a b => a.path ≠ b.path) →
      k ∈ files →
      (∀ f ∈ files, f ≠ k → (env.upload f).isOk = true) →
      errsOf env files =
        [{ filePath := k.path, error := emsg, timestamp := env.now, retryCount := 0 }] ∧
      countOk env files = files.length - 1 := by
  intro files
  induction files with
  | nil => intro _ hk; cases hk
  | cons g rest ih =>
    intro hpw hk hsucc
    have hpw' := List.pairwise_cons.mp hpw
    rcases List.mem_cons.mp hk with rfl | hkr
    · have hknr : k ∉ rest := by
        intro hr
        exact (hpw'.1 k hr) rfl
      have hallr : ∀ f ∈ rest, (env.upload f).isOk = true := by
        intro f hf
        have hfk : f ≠ k := fun hh => hknr (hh ▸ hf)
        exact hsucc f (List.mem_cons_of_mem k hf) hfk
      constructor
      · simp only [errsOf, List.filterMap_cons, hfail]
        have h0 := errsOf_all_ok env rest hallr
        simp only [errsOf] at h0
        rw [h0]
      · have hko : (env.upload k).isOk = false := by
          rw [hfail]; rfl
        simp only [countOk, List.filter_cons, hko, Bool.false_eq_true, if_false,
          List.length_cons]
        have h0 := countOk_all_ok env rest hallr
        simp only [countOk] at h0
        rw [h0]
        omega
    · have hgk : g ≠ k := by
        intro hh
        exact (hpw'.1 k hkr) (by rw [hh])
      have hgok : (env.upload g).isOk = true := hsucc g (List.mem_cons_self g rest) hgk
      have hrec := ih hpw'.2 hkr
        (fun f hf hfk => hsucc f (List.mem_cons_of_mem g hf) hfk)
      have hlen : 1 ≤ rest.length := by
        cases rest with
        | nil => cases hkr
        | cons a l => simp
      constructor
      · cases hu : env.upload g with
        | ok item =>
          simp only [errsOf, List.filterMap_cons, hu]
          exact hrec.1
        | error msg =>
          rw [hu] at hgok
          exact absurd hgok (by simp [Except.isOk, Except.toBool])
      · simp only [countOk, List.filter_cons, hgok, if_true, List.length_cons]
        have := hrec.2
        simp only [countOk] at this
        rw [this]
        omega

/-- C3: in a batch where exactly one file `k` fails upload and all others
succeed, the job ends with `filesProcessed = N - 1`, exactly one error entry
referencing `k`, a `failed` ledger record for `k` with empty remote path and
item id and the original digest, and a `synced` ledger record for every other
file of the batch (processing continues past the failure). -/
theorem syncMapping_partial_failure (env : SyncEnv) (tenantId mappingId : String)
    (preserve : Bool) (destFolder sourcePath : String)
    (scanFiles : List ScannedFile) (led0 : Ledger) (k : ScannedFile) (emsg : String)
    (hnd : scanFiles.Pairwise (fun a b => a.path ≠ b.path))
    (hres : env.resolve = Except.ok ())
    (hk : k ∈ scanFiles.filter (fun f => needsSync led0 tenantId mappingId f.path f.hash))
    (hfail : env.upload k = Except.error emsg)
    (hsucc : ∀ f ∈ scanFiles.filter
      (fun f => needsSync led0 tenantId mappingId f.path f.hash),
      f ≠ k → (env.upload f).isOk = true) :
    (syncMapping env tenantId mappingId preserve destFolder sourcePath
        scanFiles led0).1.filesProcessed =
      (scanFiles.filter (fun f => needsSync led0 tenantId mappingId f.path f.hash)).length
        - 1 ∧
    (syncMapping env tenantId mappingId preserve destFolder sourcePath
        scanFiles led0).1.filesFailed = 1 ∧
    (syncMapping env tenantId mappingId preserve destFolder sourcePath
        scanFiles led0).1.errors =
      [{ filePath := k.path, error := emsg, timestamp := env.now, retryCount := 0 }] ∧
    getSyncedFile
        (syncMapping env tenantId mappingId preserve destFolder sourcePath scanFiles led0).2
        tenantId mappingId k.path = some (failureRecord env.now emsg k) ∧
    (∀ f ∈ scanFiles.filter (fun f => needsSync led0 tenantId mappingId f.path f.hash),
      f ≠ k →
      ∃ item, env.upload f = Except.ok item ∧
        getSyncedFile
            (syncMapping env tenantId mappingId preserve destFolder sourcePath
              scanFiles led0).2
            tenantId mappingId f.path =
          some (successRecord preserve destFolder env.now f item)) := by
  have hne : scanFiles.filter
      (fun f => needsSync led0 tenantId mappingId f.path f.hash) ≠ [] := by
    intro hh
    rw [hh] at hk
    cases hk
  have hpwF : (scanFiles.filter
      (fun f => needsSync led0 tenantId mappingId f.path f.hash)).Pairwise
      (fun a b => a.path ≠ b.path) := hnd.sublist (List.filter_sublist _)
  have hshape := single_failure_shape env k emsg hfail _ hpwF hk hsucc
  rw [syncMapping_run env tenantId mappingId preserve destFolder sourcePath
    scanFiles led0 hne hres]
  dsimp only
  refine ⟨?_, ?_, ?_, ?_, ?_⟩
  · exact hshape.2
  · rw [hshape.1]
    rfl
  · exact hshape.1
  · rw [ledgerAfter_mem env tenantId mappingId preserve destFolder _ led0 k hpwF hk]
    simp [recFor, hfail]
  · intro f hf hfk
    have hok := hsucc f hf hfk
    cases hu : env.upload f with
    | ok item =>
      refine ⟨item, rfl, ?_⟩
      rw [ledgerAfter_mem env tenantId mappingId preserve destFolder _ led0 f hpwF hf]
      simp [recFor, hu]
    | error msg =>
      rw [hu] at hok
      exact absurd hok (by simp [Except.isOk, Except.toBool])

/-- Witness for C3: a two-file batch into an empty ledger where `fileB`
fails: one processed file, one failed record, one error entry. -/
theorem syncMapping_partial_failure_witness :
    (syncMapping envFailB ("t1") ("m1") true ("dest") ("/src")
        [fileA, fileB] []).1.filesProcessed =
      ([fileA, fileB].filter (fun f => needsSync [] ("t1") ("m1") f.path f.hash)).length
        - 1 ∧
    (syncMapping envFailB ("t1") ("m1") true ("dest") ("/src")
        [fileA, fileB] []).1.filesFailed = 1 ∧
    (syncMapping envFailB ("t1") ("m1") true ("dest") ("/src")
        [fileA, fileB] []).1.errors =
      [{ filePath := fileB.path, error := "boom", timestamp := envFailB.now,
         retryCount := 0 }] ∧
    getSyncedFile
        (syncMapping envFailB ("t1") ("m1") true ("dest") ("/src") [fileA, fileB] []).2
        ("t1") ("m1") fileB.path = some (failureRecord envFailB.now ("boom") fileB) ∧
    (∀ f ∈ [fileA, fileB].filter (fun f => needsSync [] ("t1") ("m1") f.path f.hash),
      f ≠ fileB →
      ∃ item, envFailB.upload f = Except.ok item ∧
        getSyncedFile
            (syncMapping envFailB ("t1") ("m1") true ("dest") ("/src") [fileA, fileB] []).2
            ("t1") ("m1") f.path =
          some (successRecord true ("dest") envFailB.now f item)) :=
  syncMapping_partial_failure envFailB ("t1") ("m1") true ("dest") ("/src")
    [fileA, fileB] [] fileB ("boom")
    (by simp [List.pairwise_cons, fileA, fileB]) (by rfl) (by decide) (by rfl)
    (by decide)

/-- C4: a `syncMapping` run that reaches the per-file loop's finalization
line ends `completed` when the error list is empty or shorter than the
batch, and `failed` exactly when every file of the batch failed. -/
theorem syncMapping_final_status (env : SyncEnv) (tenantId mappingId : String)
    (preserve : Bool) (destFolder sourcePath : String)
    (scanFiles : List ScannedFile) (led0 : Ledger)
    (hne : scanFiles.filter (fun f => needsSync led0 tenantId mappingId f.path f.hash) ≠ [])
    (hres : env.resolve = Except.ok ()) :
    ((syncMapping env tenantId mappingId preserve destFolder sourcePath
        scanFiles led0).1.errors = [] →
      (syncMapping env tenantId mappingId preserve destFolder sourcePath
        scanFiles led0).1.status = JobStatus.completed) ∧
    ((syncMapping env tenantId mappingId preserve destFolder sourcePath
        scanFiles led0).1.errors.length <
        (scanFiles.filter
          (fun f => needsSync led0 tenantId mappingId f.path f.hash)).length →
      (syncMapping env tenantId mappingId preserve destFolder sourcePath
        scanFiles led0).1.status = JobStatus.completed) ∧
    ((syncMapping env tenantId mappingId preserve destFolder sourcePath
        scanFiles led0).1.status = JobStatus.failed ↔
      (syncMapping env tenantId mappingId preserve destFolder sourcePath
          scanFiles led0).1.errors.length =
        (scanFiles.filter
          (fun f => needsSync led0 tenantId mappingId f.path f.hash)).length) := by
  rw [syncMapping_run env tenantId mappingId preserve destFolder sourcePath
    scanFiles led0 hne hres]
  dsimp only
  have hle : (errsOf env (scanFiles.filter
      (fun f => needsSync led0 tenantId mappingId f.path f.hash))).length ≤
      (scanFiles.filter
        (fun f => needsSync led0 tenantId mappingId f.path f.hash)).length :=
    List.length_filterMap_le _ _
  have hpos : 0 < (scanFiles.filter
      (fun f => needsSync led0 tenantId mappingId f.path f.hash)).length := by
    cases hF : scanFiles.filter (fun f => needsSync led0 tenantId mappingId f.path f.hash) with
    | nil => exact absurd hF hne
    | cons a l => simp
  refine ⟨?_, ?_, ?_⟩
  · intro h0
    rw [h0]
    simp
  · intro hlt
    by_cases hz : (errsOf env (scanFiles.filter
        (fun f => needsSync led0 tenantId mappingId f.path f.hash))).length = 0
    · simp [hz]
    · simp [hz, hlt]
  · constructor
    · intro hst
      by_cases hz : (errsOf env (scanFiles.filter
          (fun f => needsSync led0 tenantId mappingId f.path f.hash))).length = 0
      · rw [if_pos hz] at hst
        cases hst
      · rw [if_neg hz] at hst
        by_cases hlt : (errsOf env (scanFiles.filter
            (fun f => needsSync led0 tenantId mappingId f.path f.hash))).length <
            (scanFiles.filter
              (fun f => needsSync led0 tenantId mappingId f.path f.hash)).length
        · rw [if_pos hlt] at hst
          cases hst
        · omega
    · intro heq
      have hz : ¬ (errsOf env (scanFiles.filter
          (fun f => needsSync led0 tenantId mappingId f.path f.hash))).length = 0 := by
        omega
      have hlt : ¬ (errsOf env (scanFiles.filter
          (fun f => needsSync led0 tenantId mappingId f.path f.hash))).length <
          (scanFiles.filter
            (fun f => needsSync led0 tenantId mappingId f.path f.hash)).length := by
        omega
      rw [if_neg hz, if_neg hlt]

/-- Witness for C4: a one-file batch whose single upload fails finalizes as
`failed`; error count equals batch size. -/
theorem syncMapping_final_status_witness :
    ((syncMapping envFailB ("t1") ("m1") true ("dest") ("/src") [fileB] []).1.errors = [] →
      (syncMapping envFailB ("t1") ("m1") true ("dest") ("/src")
        [fileB] []).1.status = JobStatus.completed) ∧
    ((syncMapping envFailB ("t1") ("m1") true ("dest") ("/src")
        [fileB] []).1.errors.length <
        ([fileB].filter (fun f => needsSync [] ("t1") ("m1") f.path f.hash)).length →
      (syncMapping envFailB ("t1") ("m1") true ("dest") ("/src")
        [fileB] []).1.status = JobStatus.completed) ∧
    ((syncMapping envFailB ("t1") ("m1") true ("dest") ("/src")
        [fileB] []).1.status = JobStatus.failed ↔
      (syncMapping envFailB ("t1") ("m1") true ("dest") ("/src")
          [fileB] []).1.errors.length =
        ([fileB].filter (fun f => needsSync [] ("t1") ("m1") f.path f.hash)).length) :=
  syncMapping_final_status envFailB ("t1") ("m1") true ("dest") ("/src") [fileB] []
    (by decide) (by rfl)

/-- The observable operations a run performs against the tracker store and
the remote API; `dryRun` is expected to log reads only. -/
inductive TrackerEffect where
  | ledgerRead
  | ledgerWrite
  | remoteCall
deriving DecidableEq, Repr

/-- Result shape of `SyncEngine.dryRun`. -/
structure DryRunResult where
  toSync : List ScannedFile
  upToDate : Nat
  totalSize : Nat
deriving DecidableEq, Repr

/-- The classification loop of `dryRun` (engine lines 444-450): each file
asks `needsSync` (a ledger read) and lands in `toSync` or the `upToDate`
counter; the accumulator mirrors the source loop order. -/
def dryRunLoop (led : Ledger) (tenantId mappingId : String) :
    List ScannedFile → List ScannedFile × Nat × List TrackerEffect →
      List ScannedFile × Nat × List TrackerEffect
  | [], acc => acc
  | file :: rest, (toSync, upToDate, effects) =>
    if needsSync led tenantId mappingId file.path file.hash then
      dryRunLoop led tenantId mappingId rest
        (toSync ++ [file], upToDate, effects ++ [TrackerEffect.ledgerRead])
    else
      dryRunLoop led tenantId mappingId rest
        (toSync, upToDate + 1, effects ++ [TrackerEffect.ledgerRead])

/-- `SyncEngine.dryRun` (engine lines 431-457): scan + need-check only; the
returned ledger is the one threaded through unchanged, and the effect log
records what the run touched. -/
def dryRun (led : Ledger) (tenantId mappingId : String)
    (scanFiles : List ScannedFile) : DryRunResult × Ledger × List TrackerEffect :=
  let r := dryRunLoop led tenantId mappingId scanFiles ([], 0, [])
  ({ toSync := r.1, upToDate := r.2.1,
     totalSize := (r.1.map (fun f => f.size)).sum }, led, r.2.2)

theorem dryRunLoop_eq (led : Ledger) (tenantId mappingId : String) :
    ∀ (files : List ScannedFile) (toSync : List ScannedFile) (upToDate : Nat)
      (effects : List TrackerEffect),
      dryRunLoop led tenantId mappingId files (toSync, upToDate, effects) =
        (toSync ++ files.filter (fun f => needsSync led tenantId mappingId f.path f.hash),
         upToDate + (files.filter
           (fun f => !needsSync led tenantId mappingId f.path f.hash)).length,
         effects ++ files.map (fun _ => TrackerEffect.ledgerRead)) := by
  intro files
  induction files with
  | nil => intro ts u e; simp [dryRunLoop]
  | cons f rest ih =>
    intro ts u e
    cases hn : needsSync led tenantId mappingId f.path f.hash with
    | true =>
      simp only [dryRunLoop, hn, if_true, ih, List.filter_cons, List.map_cons,
        Bool.not_true]
      refine Prod.ext ?_ (Prod.ext ?_ ?_) <;> simp [hn]
    | false =>
      simp only [dryRunLoop, hn, Bool.false_eq_true, if_false, ih, List.filter_cons,
        List.map_cons, Bool.not_false]
      refine Prod.ext ?_ (Prod.ext ?_ ?_) <;> (simp [hn]; try omega)

/-- C8: `dryRun` only scans and checks: the ledger it returns is the input
ledger unchanged and its effect log holds ledger reads only (no writes, no
remote calls); it returns exactly the files with `needsSync` true as
candidates, counts the remaining scanned files as up to date, and reports
the byte sum of the candidates. -/
theorem dryRun_frame (led : Ledger) (tenantId mappingId : String)
    (scanFiles : List ScannedFile) :
    (dryRun led tenantId mappingId scanFiles).2.1 = led ∧
    (∀ e ∈ (dryRun led tenantId mappingId scanFiles).2.2,
      e = TrackerEffect.ledgerRead) ∧
    (dryRun led tenantId mappingId scanFiles).1.toSync =
      scanFiles.filter (fun f => needsSync led tenantId mappingId f.path f.hash) ∧
    (dryRun led tenantId mappingId scanFiles).1.upToDate =
      (scanFiles.filter
        (fun f => !needsSync led tenantId mappingId f.path f.hash)).length ∧
    (dryRun led tenantId mappingId scanFiles).1.upToDate +
        (dryRun led tenantId mappingId scanFiles).1.toSync.length =
      scanFiles.length ∧
    (dryRun led tenantId mappingId scanFiles).1.totalSize =
      ((scanFiles.filter
        (fun f => needsSync led tenantId mappingId f.path f.hash)).map
          (fun f => f.size)).sum := by
  have hsplit : ∀ (p : ScannedFile → Bool) (l : List ScannedFile),
      (l.filter (fun x => !p x)).length + (l.filter p).length = l.length := by
    intro p l
    induction l with
    | nil => rfl
    | cons a rest ih =>
      cases hp : p a <;> simp [List.filter_cons, hp] <;> omega
  unfold dryRun
  rw [dryRunLoop_eq]
  simp only [List.nil_append, Nat.zero_add]
  refine ⟨trivial, ?_, trivial, trivial, ?_, trivial⟩
  · intro e he
    rcases List.mem_map.mp he with ⟨_, _, hh⟩
    exact hh.symm
  · exact hsplit (fun f => needsSync led tenantId mappingId f.path f.hash) scanFiles

/-- `SHAREPOINT.INVALID_CHARS` from the constants module. -/
def SHAREPOINT_INVALID_CHARS : List Char :=
  ['~', '#', '%', '&', '*', '\x7b', '\x7d', '\\', ':', '<', '>', '?', '/', '|', '\"']

/-- `SHAREPOINT.RESERVED_NAMES` from the constants module. -/
def SHAREPOINT_RESERVED_NAMES : List String :=
  [".lock", "CON", "PRN", "AUX", "NUL",
   "COM0", "COM1", "COM2", "COM3", "COM4", "COM5", "COM6", "COM7", "COM8", "COM9",
   "LPT0", "LPT1", "LPT2", "LPT3", "LPT4", "LPT5", "LPT6", "LPT7", "LPT8", "LPT9",
   "_vti_", "desktop.ini"]

/-- `SHAREPOINT.CHUNK_SIZE`: 10 MiB chunks for large-file upload. -/
def SHAREPOINT_CHUNK_SIZE : Nat := 10 * 1024 * 1024

/-- `SHAREPOINT.SMALL_FILE_THRESHOLD`: 4 MiB simple-upload limit. -/
def SHAREPOINT_SMALL_FILE_THRESHOLD : Nat := 4 * 1024 * 1024

/-- `sanitized.split(char).join(invalid-replacement)`: every occurrence of `c`
becomes an underscore. -/
def replaceChar (c : Char) (s : List Char) : List Char :=
  s.map (fun x => if x = c then '_' else x)

/-- The `for (const char of INVALID_CHARS)` replacement loop. -/
def replaceInvalid (s : List Char) : List Char :=
  SHAREPOINT_INVALID_CHARS.foldl (fun acc c => replaceChar c acc) s

/-- Whitespace as removed by JavaScript's `String.prototype.trim` (the ASCII
subset relevant to file names). -/
def isJsSpace (c : Char) : Bool :=
  c = ' ' || c = '\t' || c = '\n' || c = '\r' || c = '\x0b' || c = '\x0c'

/-- `sanitized.trim()`. -/
def jsTrim (s : List Char) : List Char :=
  ((s.dropWhile isJsSpace).reverse.dropWhile isJsSpace).reverse

def isDot (c : Char) : Bool := c = '.'

/-- `sanitized.replace` of the leading-dots and trailing-dots regex. -/
def stripEdgeDots (s : List Char) : List Char :=
  ((s.dropWhile isDot).reverse.dropWhile isDot).reverse

/-- The case-insensitive reserved-name test against `RESERVED_NAMES`. -/
def isReservedName (s : List Char) : Bool :=
  SHAREPOINT_RESERVED_NAMES.any
    (fun r => decide (s.map Char.toUpper = (r.toList).map Char.toUpper))

/-- The underscore guard for reserved names. -/
def guardReserved (s : List Char) : List Char :=
  if isReservedName s then '_' :: s else s

/-- JavaScript `slice` on a character list, with negative-index handling. -/
def jsSliceChars (s : List Char) (start fin : Int) : List Char :=
  let len : Int := s.length
  let lo : Int := if start < 0 then max (len + start) 0 else min start len
  let hi : Int := if fin < 0 then max (len + fin) 0 else min fin len
  (s.take hi.toNat).drop lo.toNat

/-- `sanitized.lastIndexOf` of the dot character: last index or -1. -/
def lastDotIdx : List Char → Int
  | [] => -1
  | c :: rest =>
    let r := lastDotIdx rest
    if r ≥ 0 then r + 1
    else if c = '.' then 0 else -1

/-- The length-cap branch of `sanitizeName` (> 200 with extension splice). -/
def truncateName (s : List Char) : List Char :=
  if s.length > 200 then
    let ext := lastDotIdx s
    if ext > 0 then
      let extension := jsSliceChars s ext s.length
      jsSliceChars s 0 (200 - (extension.length : Int)) ++ extension
    else
      jsSliceChars s 0 200
  else s

/-- `GraphClient.sanitizeName` (graph client lines 482-510): invalid-char
replacement, trim, edge-dot strip, reserved-name guard, length cap. -/
def sanitizeName (name : List Char) : List Char :=
  truncateName (guardReserved (stripEdgeDots (jsTrim (replaceInvalid name))))

/-- `sanitizeName` on strings. -/
def sanitizeNameStr (name : String) : String :=
  String.mk (sanitizeName name.toList)

/-- The endpoint string built by `GraphClient.uploadSmallFile` (graph client
lines 304-314): the sanitized name sits between the parent path and the
`:/content` suffix. -/
def uploadSmallFileEndpoint (driveId parentPath fileName : String) : String :=
  let sanitizedName := sanitizeNameStr fileName
  if parentPath ≠ "" ∧ parentPath ≠ "/" then
    "/drives/" ++ driveId ++ "/root:" ++ parentPath ++ "/" ++ sanitizedName ++ ":/content"
  else
    "/drives/" ++ driveId ++ "/root:/" ++ sanitizedName ++ ":/content"

/-- C10: an all-dots name such as "..." sanitizes to the empty string, and
that empty string becomes the item-name segment of the small-file upload
endpoint path. -/
theorem sanitizeName_empty_in_endpoint :
    sanitizeNameStr ("...") = "" ∧
    uploadSmallFileEndpoint ("drive1") ("/docs") ("...") =
      "/drives/drive1/root:/docs/:/content" := by
  constructor
  · rfl
  · rfl

set_option maxRecDepth 8000 in
/-- Counterexample for C7, three concrete failures of the claim, each on an
input containing an invalid character.
1. ". a~ ." sanitizes to " a_ ", keeping leading and trailing whitespace:
   `trim` runs before the edge-dot strip, so the stripped dots expose inner
   spaces.
2. 'a~.' followed by 250 'x' (253 chars) sanitizes to 453 characters,
   exceeding the 200 cap: the extension after the last dot is 251 chars, so
   `slice(0, 200 - 251)` is a negative-end JS slice keeping 202 characters,
   to which the whole extension is appended.
3. 'ab~.' followed by 199 'x' (203 chars) sanitizes to a name starting with
   '.': the extension is exactly 200 chars, so `slice(0, 0)` is empty and
   the result is the bare extension, a leading dot. -/
theorem sanitizeName_claim_counterexample :
    ((∃ c ∈ (". a~ .").toList, c ∈ SHAREPOINT_INVALID_CHARS) ∧
      sanitizeNameStr (". a~ .") = " a_ " ∧
      (sanitizeNameStr (". a~ .")).toList.head? = some ' ') ∧
    ((∃ c ∈ ('a' :: '~' :: '.' :: List.replicate 250 'x'),
        c ∈ SHAREPOINT_INVALID_CHARS) ∧
      ('a' :: '~' :: '.' :: List.replicate 250 'x').length = 253 ∧
      (sanitizeName ('a' :: '~' :: '.' :: List.replicate 250 'x')).length = 453) ∧
    ((∃ c ∈ ('a' :: 'b' :: '~' :: '.' :: List.replicate 199 'x'),
        c ∈ SHAREPOINT_INVALID_CHARS) ∧
      (sanitizeName ('a' :: 'b' :: '~' :: '.' :: List.replicate 199 'x')).head? =
        some '.') := by
  refine ⟨⟨?_, rfl, rfl⟩, ⟨?_, rfl, ?_⟩, ⟨?_, ?_⟩⟩
  · decide
  · decide
  · rfl
  · decide
  · rfl

theorem mem_replace_foldl (cs : List Char) :
    ∀ (s : List Char) (x : Char),
      x ∈ cs.foldl (fun acc c => replaceChar c acc) s →
      x = '_' ∨ (x ∈ s ∧ x ∉ cs) := by
  induction cs with
  | nil =>
    intro s x hx
    exact Or.inr ⟨hx, by simp⟩
  | cons c rest ih =>
    intro s x hx
    rcases ih (replaceChar c s) x (by simpa using hx) with h | ⟨hmem, hnin⟩
    · exact Or.inl h
    · rcases List.mem_map.mp hmem with ⟨y, hy, hyx⟩
      by_cases hyc : y = c
      · rw [if_pos hyc] at hyx
        exact Or.inl hyx.symm
      · rw [if_neg hyc] at hyx
        subst hyx
        refine Or.inr ⟨hy, ?_⟩
        simp only [List.mem_cons, not_or]
        exact ⟨hyc, hnin⟩

theorem foldl_replace_length (cs : List Char) :
    ∀ (s : List Char),
      (cs.foldl (fun acc c => replaceChar c acc) s).length = s.length := by
  induction cs with
  | nil => intro s; rfl
  | cons c rest ih =>
    intro s
    have := ih (replaceChar c s)
    simpa [replaceChar] using this

theorem jsTrim_length_le (s : List Char) : (jsTrim s).length ≤ s.length := by
  unfold jsTrim
  calc (((s.dropWhile isJsSpace).reverse.dropWhile isJsSpace).reverse).length
      = ((s.dropWhile isJsSpace).reverse.dropWhile isJsSpace).length := by
        rw [List.length_reverse]
    _ ≤ (s.dropWhile isJsSpace).reverse.length := (List.dropWhile_sublist _).length_le
    _ = (s.dropWhile isJsSpace).length := by rw [List.length_reverse]
    _ ≤ s.length := (List.dropWhile_sublist _).length_le

theorem stripEdgeDots_length_le (s : List Char) : (stripEdgeDots s).length ≤ s.length := by
  unfold stripEdgeDots
  calc (((s.dropWhile isDot).reverse.dropWhile isDot).reverse).length
      = ((s.dropWhile isDot).reverse.dropWhile isDot).length := by
        rw [List.length_reverse]
    _ ≤ (s.dropWhile isDot).reverse.length := (List.dropWhile_sublist _).length_le
    _ = (s.dropWhile isDot).length := by rw [List.length_reverse]
    _ ≤ s.length := (List.dropWhile_sublist _).length_le

theorem mem_jsTrim (s : List Char) (x : Char) (hx : x ∈ jsTrim s) : x ∈ s := by
  unfold jsTrim at hx
  rw [List.mem_reverse] at hx
  have hx2 := (List.dropWhile_sublist isJsSpace).subset hx
  rw [List.mem_reverse] at hx2
  exact (List.dropWhile_sublist isJsSpace).subset hx2

theorem mem_stripEdgeDots (s : List Char) (x : Char) (hx : x ∈ stripEdgeDots s) :
    x ∈ s := by
  unfold stripEdgeDots at hx
  rw [List.mem_reverse] at hx
  have hx2 := (List.dropWhile_sublist isDot).subset hx
  rw [List.mem_reverse] at hx2
  exact (List.dropWhile_sublist isDot).subset hx2

theorem head?_dropWhile_ne (p : Char → Bool) :
    ∀ (l : List Char) (a : Char), (l.dropWhile p).head? = some a → p a = false := by
  intro l
  induction l with
  | nil => intro a h; cases h
  | cons c rest ih =>
    intro a h
    by_cases hp : p c
    · rw [List.dropWhile_cons_of_pos hp] at h
      exact ih a h
    · rw [List.dropWhile_cons_of_neg hp] at h
      have hac : c = a := by
        simpa using h
      subst hac
      exact Bool.eq_false_iff.mpr hp

theorem getLast?_dropWhile (p : Char → Bool) :
    ∀ (l : List Char), l.dropWhile p ≠ [] →
      (l.dropWhile p).getLast? = l.getLast? := by
  intro l
  induction l with
  | nil => intro h; exact absurd rfl h
  | cons c rest ih =>
    intro h
    by_cases hp : p c
    · rw [List.dropWhile_cons_of_pos hp] at h ⊢
      rw [ih h]
      have hrest : rest ≠ [] := by
        intro hh
        rw [hh] at h
        exact h rfl
      cases rest with
      | nil => exact absurd rfl hrest
      | cons b l2 => rw [List.getLast?_cons_cons]
    · rw [List.dropWhile_cons_of_neg hp]

theorem stripEdgeDots_head (s : List Char) (a : Char)
    (h : (stripEdgeDots s).head? = some a) : isDot a = false := by
  unfold stripEdgeDots at h
  rw [List.head?_reverse] at h
  have hne : (s.dropWhile isDot).reverse.dropWhile isDot ≠ [] := by
    intro hh
    rw [hh] at h
    cases h
  rw [getLast?_dropWhile isDot _ hne, List.getLast?_reverse] at h
  exact head?_dropWhile_ne isDot _ a h

theorem stripEdgeDots_last (s : List Char) (a : Char)
    (h : (stripEdgeDots s).getLast? = some a) : isDot a = false := by
  unfold stripEdgeDots at h
  rw [List.getLast?_reverse] at h
  exact head?_dropWhile_ne isDot _ a h

theorem isReservedName_length (s : List Char) (h : isReservedName s = true) :
    s.length ≤ 11 := by
  unfold isReservedName at h
  rcases List.any_eq_true.mp h with ⟨r, hr, heq⟩
  have hll : s.length = (r.toList).length := by
    have := of_decide_eq_true heq
    calc s.length = (s.map Char.toUpper).length := by rw [List.length_map]
      _ = ((r.toList).map Char.toUpper).length := by rw [this]
      _ = (r.toList).length := by rw [List.length_map]
  have hr11 : ∀ r' ∈ SHAREPOINT_RESERVED_NAMES, (r'.toList).length ≤ 11 := by decide
  rw [hll]
  exact hr11 r hr

theorem truncateName_eq_self (s : List Char) (h : s.length ≤ 200) :
    truncateName s = s := by
  unfold truncateName
  rw [if_neg (by omega)]

theorem mem_jsSliceChars (s : List Char) (a b : Int) (x : Char)
    (hx : x ∈ jsSliceChars s a b) : x ∈ s := by
  unfold jsSliceChars at hx
  have h1 := (List.drop_sublist _ _).subset hx
  exact (List.take_sublist _ _).subset h1

theorem mem_truncateName (s : List Char) (x : Char) (hx : x ∈ truncateName s) :
    x ∈ s := by
  unfold truncateName at hx
  by_cases h2 : s.length > 200
  · rw [if_pos h2] at hx
    dsimp only at hx
    by_cases hext : lastDotIdx s > 0
    · rw [if_pos hext] at hx
      rcases List.mem_append.mp hx with h | h
      · exact mem_jsSliceChars _ _ _ _ h
      · exact mem_jsSliceChars _ _ _ _ h
    · rw [if_neg hext] at hx
      exact mem_jsSliceChars _ _ _ _ hx
  · rw [if_neg h2] at hx
    exact hx

theorem lastDotIdx_lt_length : ∀ (s : List Char), lastDotIdx s < (s.length : Int) := by
  intro s
  induction s with
  | nil => simp [lastDotIdx]
  | cons c rest ih =>
    simp only [lastDotIdx, List.length_cons]
    by_cases hr : lastDotIdx rest ≥ 0
    · rw [if_pos hr]
      push_cast
      omega
    · rw [if_neg hr]
      by_cases hc : c = '.'
      · rw [if_pos hc]
        push_cast
        omega
      · rw [if_neg hc]
        push_cast
        omega

theorem lastDotIdx_neg : ∀ (s : List Char), lastDotIdx s < 0 → '.' ∉ s := by
  intro s
  induction s with
  | nil => intro _ h; cases h
  | cons c rest ih =>
    intro h hmem
    simp only [lastDotIdx] at h
    by_cases hr : lastDotIdx rest ≥ 0
    · rw [if_pos hr] at h
      omega
    · rw [if_neg hr] at h
      by_cases hc : c = '.'
      · rw [if_pos hc] at h
        omega
      · rw [if_neg hc] at h
        rcases List.mem_cons.mp hmem with heq | hmem2
        · exact hc heq.symm
        · exact ih (by omega) hmem2

theorem lastDotIdx_zero (s : List Char) (h : lastDotIdx s = 0) :
    s.head? = some '.' := by
  cases s with
  | nil => simp [lastDotIdx] at h
  | cons c rest =>
    simp only [lastDotIdx] at h
    by_cases hr : lastDotIdx rest ≥ 0
    · rw [if_pos hr] at h
      omega
    · rw [if_neg hr] at h
      by_cases hc : c = '.'
      · rw [hc]
        rfl
      · rw [if_neg hc] at h
        omega

theorem jsSliceChars_from (s : List Char) (i : Int) (h0 : 0 ≤ i)
    (hle : i ≤ (s.length : Int)) :
    jsSliceChars s i ((s.length : Int)) = s.drop i.toNat := by
  unfold jsSliceChars
  simp only [if_neg (by omega : ¬ i < 0),
    if_neg (by omega : ¬ ((s.length : Int)) < 0), min_self, min_eq_left hle,
    Int.toNat_natCast, List.take_length]

theorem getLast?_suffix (l1 l2 : List Char) (hs : l1 <:+ l2) (hne : l1 ≠ []) :
    l1.getLast? = l2.getLast? := by
  obtain ⟨t, rfl⟩ := hs
  exact (List.getLast?_append_of_ne_nil t hne).symm

theorem getLast?_mem_self (l : List Char) (a : Char) (h : l.getLast? = some a) :
    a ∈ l := by
  rcases List.mem_getLast?_eq_getLast (Option.mem_def.mpr h) with ⟨hne, rfl⟩
  exact List.getLast_mem hne

theorem guardStrip_head_ne_dot (t : List Char) :
    (guardReserved (stripEdgeDots t)).head? ≠ some '.' := by
  unfold guardReserved
  by_cases hr : isReservedName (stripEdgeDots t) = true
  · rw [if_pos hr]
    simp
  · rw [if_neg hr]
    intro h
    have := stripEdgeDots_head t '.' h
    simp [isDot] at this

theorem guardStrip_last_ne_dot (t : List Char) :
    (guardReserved (stripEdgeDots t)).getLast? ≠ some '.' := by
  unfold guardReserved
  by_cases hr : isReservedName (stripEdgeDots t) = true
  · rw [if_pos hr]
    cases hs : stripEdgeDots t with
    | nil => simp
    | cons b l2 =>
      rw [List.getLast?_cons_cons]
      intro h
      have := stripEdgeDots_last t '.' (by rw [hs]; exact h)
      simp [isDot] at this
  · rw [if_neg hr]
    intro h
    have := stripEdgeDots_last t '.' h
    simp [isDot] at this

theorem truncateName_last_ne_dot (s : List Char)
    (hhead : s.head? ≠ some '.') (hlast : s.getLast? ≠ some '.') :
    (truncateName s).getLast? ≠ some '.' := by
  unfold truncateName
  by_cases hlen : s.length > 200
  · rw [if_pos hlen]
    dsimp only
    by_cases hext : lastDotIdx s > 0
    · rw [if_pos hext]
      have hilt := lastDotIdx_lt_length s
      have hslice := jsSliceChars_from s (lastDotIdx s) (by omega) (by omega)
      have hdne : s.drop (lastDotIdx s).toNat ≠ [] := by
        rw [Ne, List.drop_eq_nil_iff]
        omega
      rw [hslice, List.getLast?_append_of_ne_nil _ hdne,
        getLast?_suffix _ s (List.drop_suffix _ _) hdne]
      exact hlast
    · rw [if_neg hext]
      have h0 : lastDotIdx s ≠ 0 := by
        intro hz
        exact hhead (lastDotIdx_zero s hz)
      have hnod : '.' ∉ s := lastDotIdx_neg s (by omega)
      intro hcon
      exact hnod (mem_jsSliceChars _ _ _ _ (getLast?_mem_self _ _ hcon))
  · rw [if_neg hlen]
    exact hlast

theorem truncateName_ext_suffix (s : List Char) (hpos : 0 < lastDotIdx s) :
    jsSliceChars s (lastDotIdx s) ((s.length : Int)) <:+ truncateName s := by
  unfold truncateName
  by_cases hlen : s.length > 200
  · rw [if_pos hlen]
    dsimp only
    rw [if_pos hpos]
    exact List.suffix_append _ _
  · rw [if_neg hlen]
    have hilt := lastDotIdx_lt_length s
    rw [jsSliceChars_from s (lastDotIdx s) (by omega) (by omega)]
    exact List.drop_suffix _ _

/-- C7 (amended): for every input name (in particular one containing invalid
characters), `sanitizeName` returns a name with no character of the invalid
set and no trailing dots; a stripped name matching a reserved name is
prefixed with an underscore; and whenever the name about to be truncated has
a dot-extension, that extension survives as a suffix of the result. When no
truncation occurs (the pre-truncation name is within the 200-character cap —
in particular for every input of at most 200 characters), the result
additionally has no leading dots and length at most 200. Leading or trailing
whitespace can remain, the cap can be exceeded, and a leading dot can appear
in the truncation branch — see the three counterexamples. -/
theorem sanitizeName_amended (name : List Char) :
    (∀ c ∈ sanitizeName name, c ∉ SHAREPOINT_INVALID_CHARS) ∧
    (sanitizeName name).getLast? ≠ some '.' ∧
    ((guardReserved (stripEdgeDots (jsTrim (replaceInvalid name)))).length ≤ 200 →
      (sanitizeName name).head? ≠ some '.' ∧ (sanitizeName name).length ≤ 200) ∧
    (name.length ≤ 200 →
      (guardReserved (stripEdgeDots (jsTrim (replaceInvalid name)))).length ≤ 200) ∧
    (isReservedName (stripEdgeDots (jsTrim (replaceInvalid name))) = true →
      (sanitizeName name).head? = some '_') ∧
    (0 < lastDotIdx (guardReserved (stripEdgeDots (jsTrim (replaceInvalid name)))) →
      jsSliceChars (guardReserved (stripEdgeDots (jsTrim (replaceInvalid name))))
          (lastDotIdx (guardReserved (stripEdgeDots (jsTrim (replaceInvalid name)))))
          (((guardReserved (stripEdgeDots (jsTrim (replaceInvalid name)))).length : Int))
        <:+ sanitizeName name) := by
  have hbridge : name.length ≤ 200 →
      (guardReserved (stripEdgeDots (jsTrim (replaceInvalid name)))).length ≤ 200 := by
    intro hlen
    have hlen2 : (stripEdgeDots (jsTrim (replaceInvalid name))).length ≤ name.length := by
      calc (stripEdgeDots (jsTrim (replaceInvalid name))).length
          ≤ (jsTrim (replaceInvalid name)).length := stripEdgeDots_length_le _
        _ ≤ (replaceInvalid name).length := jsTrim_length_le _
        _ = name.length := foldl_replace_length _ name
    unfold guardReserved
    by_cases hr : isReservedName (stripEdgeDots (jsTrim (replaceInvalid name))) = true
    · rw [if_pos hr]
      have := isReservedName_length _ hr
      simp only [List.length_cons]
      omega
    · rw [if_neg hr]
      omega
  refine ⟨?_, ?_, ?_, hbridge, ?_, ?_⟩
  · intro c hc
    unfold sanitizeName at hc
    have hc1 := mem_truncateName _ _ hc
    have hc2 : c = '_' ∨ c ∈ stripEdgeDots (jsTrim (replaceInvalid name)) := by
      unfold guardReserved at hc1
      by_cases hr : isReservedName (stripEdgeDots (jsTrim (replaceInvalid name))) = true
      · rw [if_pos hr] at hc1
        rcases List.mem_cons.mp hc1 with h | h
        · exact Or.inl h
        · exact Or.inr h
      · rw [if_neg hr] at hc1
        exact Or.inr hc1
    rcases hc2 with rfl | hc3
    · decide
    · have hc4 := mem_jsTrim _ _ (mem_stripEdgeDots _ _ hc3)
      rcases mem_replace_foldl SHAREPOINT_INVALID_CHARS name c hc4 with rfl | ⟨_, hnin⟩
      · decide
      · exact hnin
  · exact truncateName_last_ne_dot _ (guardStrip_head_ne_dot _) (guardStrip_last_ne_dot _)
  · intro hle
    unfold sanitizeName
    rw [truncateName_eq_self _ hle]
    exact ⟨guardStrip_head_ne_dot _, hle⟩
  · intro hr
    have hres : (guardReserved (stripEdgeDots (jsTrim (replaceInvalid name)))).length
        ≤ 200 := by
      unfold guardReserved
      rw [if_pos hr]
      have := isReservedName_length _ hr
      simp only [List.length_cons]
      omega
    unfold sanitizeName
    rw [truncateName_eq_self _ hres]
    unfold guardReserved
    rw [if_pos hr]
    rfl
  · intro hpos
    exact truncateName_ext_suffix _ hpos

/-- Witness for C7 (amended): a short name with an invalid character and an
extension sanitizes within all the amended guarantees, with the conditional
parts discharged at this input. -/
theorem sanitizeName_amended_witness :
    (∀ c ∈ sanitizeName (("te~st.txt").toList), c ∉ SHAREPOINT_INVALID_CHARS) ∧
    (sanitizeName (("te~st.txt").toList)).getLast? ≠ some '.' ∧
    (sanitizeName (("te~st.txt").toList)).head? ≠ some '.' ∧
    (sanitizeName (("te~st.txt").toList)).length ≤ 200 ∧
    jsSliceChars (guardReserved (stripEdgeDots (jsTrim (replaceInvalid
          (("te~st.txt").toList)))))
        (lastDotIdx (guardReserved (stripEdgeDots (jsTrim (replaceInvalid
          (("te~st.txt").toList))))))
        (((guardReserved (stripEdgeDots (jsTrim (replaceInvalid
          (("te~st.txt").toList))))).length : Int))
      <:+ sanitizeName (("te~st.txt").toList) := by
  have H := sanitizeName_amended (("te~st.txt").toList)
  have hcond := H.2.2.1 (H.2.2.2.1 (by decide))
  exact ⟨H.1, H.2.1, hcond.1, hcond.2, H.2.2.2.2.2 (by decide)⟩

/-- The `while (uploaded < totalSize)` loop of `GraphClient.uploadLargeFile`
(graph client lines 388-421): each iteration sends the byte range
`[uploaded, rangeEnd]` with the matching `content.slice` body and advances to
`rangeEnd + 1`. A positive chunk size is required for the JS loop to make
progress; the source uses the constant `SHAREPOINT.CHUNK_SIZE`. -/
def uploadChunksGo (chunkSize : Nat) (content : List Nat) (uploaded : Nat) :
    List (Nat × Nat × List Nat) :=
  if h : uploaded < content.length ∧ 0 < chunkSize then
    let rangeEnd := min (uploaded + chunkSize - 1) (content.length - 1)
    (uploaded, rangeEnd, (content.take (rangeEnd + 1)).drop uploaded) ::
      uploadChunksGo chunkSize content (rangeEnd + 1)
  else []
termination_by content.length - uploaded
decreasing_by
  omega

/-- The full sequence of (rangeStart, rangeEnd, body) chunk PUTs sent by
`uploadLargeFile` for a buffer. -/
def uploadLargeFileChunks (content : List Nat) (chunkSize : Nat) :
    List (Nat × Nat × List Nat) :=
  uploadChunksGo chunkSize content 0

theorem getLast?_cons_of_ne {α : Type} (a : α) (l : List α) (h : l ≠ []) :
    (a :: l).getLast? = l.getLast? := by
  cases l with
  | nil => exact absurd rfl h
  | cons b t => exact List.getLast?_cons_cons

theorem uploadChunksGo_spec (C : Nat) (content : List Nat) (hC : 0 < C) :
    ∀ (n uploaded : Nat), content.length - uploaded ≤ n →
      uploaded < content.length →
      (uploadChunksGo C content uploaded ≠ [] ∧
       ((uploadChunksGo C content uploaded).map Prod.fst).head? = some uploaded ∧
       List.Chain' (fun a b => b.1 = a.2.1 + 1) (uploadChunksGo C content uploaded) ∧
       (∀ r ∈ uploadChunksGo C content uploaded,
         uploaded ≤ r.1 ∧ r.1 ≤ r.2.1 ∧ r.2.1 < content.length ∧
         r.2.2 = (content.take (r.2.1 + 1)).drop r.1) ∧
       ((uploadChunksGo C content uploaded).map (fun r => r.2.1)).getLast? =
         some (content.length - 1) ∧
       List.Pairwise (fun a b => a.2.1 < b.1) (uploadChunksGo C content uploaded) ∧
       (∀ i : Nat, (uploaded ≤ i ∧ i < content.length) ↔
         ∃ r ∈ uploadChunksGo C content uploaded, r.1 ≤ i ∧ i ≤ r.2.1)) := by
  intro n
  induction n with
  | zero =>
    intro uploaded hn hu
    omega
  | succ m ih =>
    intro uploaded hn hu
    have hcond : uploaded < content.length ∧ 0 < C := ⟨hu, hC⟩
    rw [uploadChunksGo, dif_pos hcond]
    dsimp only
    have hue : uploaded ≤ min (uploaded + C - 1) (content.length - 1) := by omega
    have hel : min (uploaded + C - 1) (content.length - 1) < content.length := by omega
    by_cases hrest : min (uploaded + C - 1) (content.length - 1) + 1 < content.length
    · have H := ih (min (uploaded + C - 1) (content.length - 1) + 1) (by omega) hrest
      have hne := H.1
      refine ⟨by simp, by simp, ?_, ?_, ?_, ?_, ?_⟩
      · rw [List.chain'_cons']
        refine ⟨?_, H.2.2.1⟩
        intro b hb
        have hhd := H.2.1
        rw [List.head?_map] at hhd
        rw [Option.mem_def] at hb
        rw [hb] at hhd
        simpa using hhd
      · intro r hr
        rcases List.mem_cons.mp hr with rfl | hr2
        · exact ⟨le_refl _, hue, hel, rfl⟩
        · have hb := H.2.2.2.1 r hr2
          exact ⟨by omega, hb.2.1, hb.2.2.1, hb.2.2.2⟩
      · rw [List.map_cons, getLast?_cons_of_ne _ _ (by simpa using hne)]
        exact H.2.2.2.2.1
      · rw [List.pairwise_cons]
        refine ⟨?_, H.2.2.2.2.2.1⟩
        intro b hb
        have hb1 := (H.2.2.2.1 b hb).1
        dsimp only
        omega
      · intro i
        constructor
        · rintro ⟨h1, h2⟩
          by_cases hie : i ≤ min (uploaded + C - 1) (content.length - 1)
          · exact ⟨(uploaded, min (uploaded + C - 1) (content.length - 1),
              (content.take (min (uploaded + C - 1) (content.length - 1) + 1)).drop
                uploaded), List.mem_cons_self _ _, h1, hie⟩
          · rcases (H.2.2.2.2.2.2 i).mp ⟨by omega, h2⟩ with ⟨r, hr, hri⟩
            exact ⟨r, List.mem_cons_of_mem _ hr, hri⟩
        · rintro ⟨r, hr, h1, h2⟩
          rcases List.mem_cons.mp hr with rfl | hr2
          · dsimp only at h1 h2
            omega
          · have hb := H.2.2.2.1 r hr2
            constructor
            · omega
            · omega
    · have hemp : uploadChunksGo C content
          (min (uploaded + C - 1) (content.length - 1) + 1) = [] := by
        rw [uploadChunksGo, dif_neg]
        omega
      rw [hemp]
      have heq : min (uploaded + C - 1) (content.length - 1) = content.length - 1 := by
        omega
      refine ⟨by simp, by simp, List.chain'_singleton _, ?_, ?_, ?_, ?_⟩
      · intro r hr
        rcases List.mem_cons.mp hr with rfl | hr2
        · exact ⟨le_refl _, hue, hel, rfl⟩
        · cases hr2
      · simp [heq]
      · simp
      · intro i
        simp only [List.mem_singleton]
        constructor
        · rintro ⟨h1, h2⟩
          refine ⟨(uploaded, min (uploaded + C - 1) (content.length - 1),
            (content.take (min (uploaded + C - 1) (content.length - 1) + 1)).drop
              uploaded), rfl, h1, by dsimp only; omega⟩
        · rintro ⟨r, hr, h1, h2⟩
          rw [hr] at h1 h2
          dsimp only at h1 h2
          omega

/-- C5: for a nonempty buffer and positive chunk size, the byte ranges sent
by `uploadLargeFile` start at 0, are consecutive (each range starts right
after the previous one ends) and pairwise non-overlapping, every chunk body
is the content slice at its declared range, the ranges cover exactly
`[0, S)`, and the final range's upper bound is `S - 1`. -/
theorem uploadLargeFile_chunk_coverage (content : List Nat) (C : Nat)
    (hS : 0 < content.length) (hC : 0 < C) :
    uploadLargeFileChunks content C ≠ [] ∧
    ((uploadLargeFileChunks content C).map Prod.fst).head? = some 0 ∧
    List.Chain' (fun a b => b.1 = a.2.1 + 1) (uploadLargeFileChunks content C) ∧
    (∀ r ∈ uploadLargeFileChunks content C,
      r.1 ≤ r.2.1 ∧ r.2.1 < content.length ∧
      r.2.2 = (content.take (r.2.1 + 1)).drop r.1) ∧
    ((uploadLargeFileChunks content C).map (fun r => r.2.1)).getLast? =
      some (content.length - 1) ∧
    List.Pairwise (fun a b => a.2.1 < b.1) (uploadLargeFileChunks content C) ∧
    (∀ i : Nat, i < content.length ↔
      ∃ r ∈ uploadLargeFileChunks content C, r.1 ≤ i ∧ i ≤ r.2.1) := by
  have H := uploadChunksGo_spec C content hC content.length 0 (by omega) hS
  unfold uploadLargeFileChunks
  refine ⟨H.1, H.2.1, H.2.2.1, ?_, H.2.2.2.2.1, H.2.2.2.2.2.1, ?_⟩
  · intro r hr
    have hb := H.2.2.2.1 r hr
    exact ⟨hb.2.1, hb.2.2.1, hb.2.2.2⟩
  · intro i
    constructor
    · intro hi
      exact (H.2.2.2.2.2.2 i).mp ⟨Nat.zero_le i, hi⟩
    · intro hex
      exact ((H.2.2.2.2.2.2 i).mpr hex).2

/-- Witness for C5: a 3-byte buffer with the real 10 MiB chunk size is sent
as a single full-range chunk satisfying all coverage properties. -/
theorem uploadLargeFile_chunk_coverage_witness :
    uploadLargeFileChunks [5, 6, 7] SHAREPOINT_CHUNK_SIZE ≠ [] ∧
    ((uploadLargeFileChunks [5, 6, 7] SHAREPOINT_CHUNK_SIZE).map Prod.fst).head? =
      some 0 ∧
    List.Chain' (fun a b => b.1 = a.2.1 + 1)
      (uploadLargeFileChunks [5, 6, 7] SHAREPOINT_CHUNK_SIZE) ∧
    (∀ r ∈ uploadLargeFileChunks [5, 6, 7] SHAREPOINT_CHUNK_SIZE,
      r.1 ≤ r.2.1 ∧ r.2.1 < ([5, 6, 7] : List Nat).length ∧
      r.2.2 = (([5, 6, 7] : List Nat).take (r.2.1 + 1)).drop r.1) ∧
    ((uploadLargeFileChunks [5, 6, 7] SHAREPOINT_CHUNK_SIZE).map
      (fun r => r.2.1)).getLast? = some (([5, 6, 7] : List Nat).length - 1) ∧
    List.Pairwise (fun a b => a.2.1 < b.1)
      (uploadLargeFileChunks [5, 6, 7] SHAREPOINT_CHUNK_SIZE) ∧
    (∀ i : Nat, i < ([5, 6, 7] : List Nat).length ↔
      ∃ r ∈ uploadLargeFileChunks [5, 6, 7] SHAREPOINT_CHUNK_SIZE,
        r.1 ≤ i ∧ i ≤ r.2.1) :=
  uploadLargeFile_chunk_coverage [5, 6, 7] SHAREPOINT_CHUNK_SIZE (by decide) (by decide)

/-- A folder path on the remote drive, as the list of its segment names
(the drive root is `[]`). -/
abbrev FolderPath := List String

/-- The drive-side folder state: the set of folder paths that exist (each
stored under the name it was actually created with). -/
structure RemoteState where
  folders : List FolderPath
deriving DecidableEq, Repr

/-- A GET of `/drives/id/root:path` succeeds iff the path is the root or an
existing folder. -/
def pathExists (s : RemoteState) (p : FolderPath) : Bool :=
  decide (p = []) || decide (p ∈ s.folders)

/-- A POST of a child folder with `@microsoft.graph.conflictBehavior: fail`:
404 when the parent path does not resolve, 409 (conflict) when a child of
that name already exists, otherwise the new item. -/
def createChild (s : RemoteState) (parent : FolderPath) (name : String) :
    Except Nat (FolderPath × RemoteState) :=
  if pathExists s parent = false then Except.error 404
  else if (parent ++ [name]) ∈ s.folders then Except.error 409
  else Except.ok (parent ++ [name], { folders := s.folders ++ [parent ++ [name]] })

/-- JavaScript `split('/')` over the character list (keeps empty segments,
as the source's `.filter(Boolean)` removes them separately). -/
def splitSegsChars : List Char → List Char → List (List Char)
  | [], acc => [acc.reverse]
  | c :: rest, acc =>
    if c = '/' then acc.reverse :: splitSegsChars rest []
    else splitSegsChars rest (c :: acc)

/-- `folderPath.split('/').filter(Boolean)` from `ensureFolder`. -/
def splitSegments (folderPath : String) : List String :=
  ((splitSegsChars folderPath.toList []).map (fun cs => String.mk cs)).filter
    (fun seg => seg ≠ "")

/-- The per-segment loop of `GraphClient.ensureFolder` (graph client lines
264-296): `currentSegs` is the raw `currentPath` accumulated so far; the GET
uses the raw path while a create uses the sanitized segment name; a 404 on
GET triggers the create, whose own failures propagate. -/
def ensureFolderGo (s : RemoteState) (currentSegs : List String)
    (current : Option FolderPath) :
    List String → Except Nat (Option FolderPath × RemoteState)
  | [] => Except.ok (current, s)
  | part :: rest =>
    let raw := currentSegs ++ [part]
    let sanitizedPart := sanitizeNameStr part
    if pathExists s raw then
      ensureFolderGo s raw (some raw) rest
    else
      match createChild s currentSegs sanitizedPart with
      | Except.error e => Except.error e
      | Except.ok (item, s') => ensureFolderGo s' raw (some item) rest

/-- `GraphClient.ensureFolder` (graph client lines 258-299): root paths
resolve to the drive root; otherwise the segment loop runs over the
non-empty segments. -/
def ensureFolder (s : RemoteState) (folderPath : String) :
    Except Nat (FolderPath × RemoteState) :=
  if folderPath = "" ∨ folderPath = "/" then Except.ok ([], s)
  else
    match ensureFolderGo s [] none (splitSegments folderPath) with
    | Except.error e => Except.error e
    | Except.ok (some item, s') => Except.ok (item, s')
    | Except.ok (none, s') => Except.ok ([], s')

/-- Counterexample for C6: the folder name "a?b" needs sanitization; the
first `ensureFolder` call creates the folder under the sanitized name
"a_b", so the second call's GET of the raw path still misses, and its
create with conflict behavior "fail" is rejected with a conflict — the
second call fails instead of being idempotent. -/
theorem ensureFolder_sanitized_counterexample :
    ensureFolder { folders := [] } ("a?b") =
      Except.ok (["a_b"], { folders := [["a_b"]] }) ∧
    ensureFolder { folders := [["a_b"]] } ("a?b") = Except.error 409 := by
  constructor
  · rfl
  · rfl

theorem pathExists_mono (s s' : RemoteState) (p : FolderPath)
    (hsub : ∀ q ∈ s.folders, q ∈ s'.folders) (h : pathExists s p = true) :
    pathExists s' p = true := by
  unfold pathExists at h ⊢
  rcases Bool.or_eq_true_iff.mp h with h1 | h2
  · rw [h1]
    simp
  · have := hsub p (of_decide_eq_true h2)
    simp [this]

theorem ensureFolderGo_mono :
    ∀ (parts : List String) (s : RemoteState) (cs : List String)
      (cur cur' : Option FolderPath) (s' : RemoteState),
      ensureFolderGo s cs cur parts = Except.ok (cur', s') →
      ∀ q ∈ s.folders, q ∈ s'.folders := by
  intro parts
  induction parts with
  | nil =>
    intro s cs cur cur' s' h q hq
    simp only [ensureFolderGo] at h
    injection h with hpair
    have hs : s = s' := congrArg Prod.snd hpair
    rw [← hs]
    exact hq
  | cons part rest ih =>
    intro s cs cur cur' s' h q hq
    simp only [ensureFolderGo] at h
    by_cases hex : pathExists s (cs ++ [part]) = true
    · rw [if_pos hex] at h
      exact ih s _ _ cur' s' h q hq
    · rw [if_neg hex] at h
      cases hc : createChild s cs (sanitizeNameStr part) with
      | error e =>
        rw [hc] at h
        exact absurd h (by simp)
      | ok pr =>
        obtain ⟨it, s1⟩ := pr
        rw [hc] at h
        have hq1 : q ∈ s1.folders := by
          unfold createChild at hc
          by_cases hpe : pathExists s cs = false
          · rw [if_pos hpe] at hc
            exact absurd hc (by simp)
          · rw [if_neg hpe] at hc
            by_cases hmem : (cs ++ [sanitizeNameStr part]) ∈ s.folders
            · rw [if_pos hmem] at hc
              exact absurd hc (by simp)
            · rw [if_neg hmem] at hc
              injection hc with hpair
              have hs1 : ({ folders := s.folders ++ [cs ++ [sanitizeNameStr part]] } :
                  RemoteState) = s1 := congrArg Prod.snd hpair
              rw [← hs1]
              simp [hq]
        exact ih s1 _ _ cur' s' h q hq1

theorem createChild_ok (s : RemoteState) (parent : FolderPath) (nm : String)
    (it : FolderPath) (s1 : RemoteState)
    (hc : createChild s parent nm = Except.ok (it, s1)) :
    it = parent ++ [nm] ∧ s1.folders = s.folders ++ [parent ++ [nm]] := by
  unfold createChild at hc
  by_cases hpe : pathExists s parent = false
  · rw [if_pos hpe] at hc
    exact absurd hc (by simp)
  · rw [if_neg hpe] at hc
    by_cases hmem : (parent ++ [nm]) ∈ s.folders
    · rw [if_pos hmem] at hc
      exact absurd hc (by simp)
    · rw [if_neg hmem] at hc
      injection hc with hpair
      constructor
      · exact (congrArg Prod.fst hpair).symm
      · exact congrArg RemoteState.folders (congrArg Prod.snd hpair).symm

theorem ensureFolderGo_materializes :
    ∀ (parts : List String) (s : RemoteState) (cs : List String)
      (cur cur' : Option FolderPath) (s' : RemoteState),
      (∀ p ∈ parts, sanitizeNameStr p = p) →
      ensureFolderGo s cs cur parts = Except.ok (cur', s') →
      ∀ ps, ps <+: parts → ps ≠ [] → pathExists s' (cs ++ ps) = true := by
  intro parts
  induction parts with
  | nil =>
    intro s cs cur cur' s' _ _ ps hps hne
    rw [List.prefix_nil] at hps
    exact absurd hps hne
  | cons part rest ih =>
    intro s cs cur cur' s' hsan h ps hps hne
    cases ps with
    | nil => exact absurd rfl hne
    | cons p0 ps' =>
      rcases (List.cons_prefix_cons.mp hps) with ⟨hp0, hps'⟩
      subst hp0
      have hassoc : cs ++ (p0 :: ps') = (cs ++ [p0]) ++ ps' := by simp
      rw [hassoc]
      simp only [ensureFolderGo] at h
      by_cases hex : pathExists s (cs ++ [p0]) = true
      · rw [if_pos hex] at h
        cases ps' with
        | nil =>
          have hmono := ensureFolderGo_mono rest s (cs ++ [p0]) _ cur' s' h
          simpa using pathExists_mono s s' (cs ++ [p0]) hmono hex
        | cons q qs =>
          exact ih s (cs ++ [p0]) _ cur' s'
            (fun p hp => hsan p (List.mem_cons_of_mem _ hp)) h (q :: qs) hps'
            (by simp)
      · rw [if_neg hex] at h
        cases hc : createChild s cs (sanitizeNameStr p0) with
        | error e =>
          rw [hc] at h
          exact absurd h (by simp)
        | ok pr =>
          obtain ⟨it, s1⟩ := pr
          rw [hc] at h
          have hsn : sanitizeNameStr p0 = p0 := hsan p0 (List.mem_cons_self _ _)
          rw [hsn] at hc
          have hok := createChild_ok s cs p0 it s1 hc
          have hraw1 : (cs ++ [p0]) ∈ s1.folders := by
            rw [hok.2]
            simp
          cases ps' with
          | nil =>
            have hmono := ensureFolderGo_mono rest s1 (cs ++ [p0]) _ cur' s' h
            have : (cs ++ [p0]) ∈ s'.folders := hmono _ hraw1
            simp [pathExists, this]
          | cons q qs =>
            exact ih s1 (cs ++ [p0]) _ cur' s'
              (fun p hp => hsan p (List.mem_cons_of_mem _ hp)) h (q :: qs) hps'
              (by simp)

theorem ensureFolderGo_clean :
    ∀ (parts : List String) (s : RemoteState) (cs : List String)
      (cur : Option FolderPath),
      (∀ ps, ps <+: parts → ps ≠ [] → pathExists s (cs ++ ps) = true) →
      ensureFolderGo s cs cur parts =
        Except.ok ((if parts = [] then cur else some (cs ++ parts)), s) := by
  intro parts
  induction parts with
  | nil =>
    intro s cs cur _
    simp [ensureFolderGo]
  | cons part rest ih =>
    intro s cs cur hall
    have hex : pathExists s (cs ++ [part]) = true :=
      hall [part] (List.cons_prefix_cons.mpr ⟨rfl, List.nil_prefix ..⟩) (by simp)
    simp only [ensureFolderGo]
    rw [if_pos hex]
    have hrec := ih s (cs ++ [part]) (some (cs ++ [part])) (fun ps hps hne => by
      have hassoc : (cs ++ [part]) ++ ps = cs ++ (part :: ps) := by simp
      rw [hassoc]
      exact hall (part :: ps) (List.cons_prefix_cons.mpr ⟨rfl, hps⟩) (by simp))
    rw [hrec]
    cases rest with
    | nil => simp
    | cons q qs => simp

theorem ensureFolderGo_item :
    ∀ (parts : List String) (s : RemoteState) (cs : List String)
      (cur cur' : Option FolderPath) (s' : RemoteState),
      (∀ p ∈ parts, sanitizeNameStr p = p) →
      ensureFolderGo s cs cur parts = Except.ok (cur', s') →
      cur' = if parts = [] then cur else some (cs ++ parts) := by
  intro parts
  induction parts with
  | nil =>
    intro s cs cur cur' s' _ h
    simp only [ensureFolderGo] at h
    injection h with hpair
    rw [if_pos rfl]
    exact (congrArg Prod.fst hpair).symm
  | cons part rest ih =>
    intro s cs cur cur' s' hsan h
    rw [if_neg (by simp)]
    simp only [ensureFolderGo] at h
    by_cases hex : pathExists s (cs ++ [part]) = true
    · rw [if_pos hex] at h
      have := ih s (cs ++ [part]) (some (cs ++ [part])) cur' s'
        (fun p hp => hsan p (List.mem_cons_of_mem _ hp)) h
      cases rest with
      | nil => simpa using this
      | cons q qs =>
        rw [this, if_neg (by simp)]
        simp
    · rw [if_neg hex] at h
      cases hc : createChild s cs (sanitizeNameStr part) with
      | error e =>
        rw [hc] at h
        exact absurd h (by simp)
      | ok pr =>
        obtain ⟨it, s1⟩ := pr
        rw [hc] at h
        have hsn : sanitizeNameStr part = part := hsan part (List.mem_cons_self _ _)
        rw [hsn] at hc
        have hok := createChild_ok s cs part it s1 hc
        have := ih s1 (cs ++ [part]) (some it) cur' s'
          (fun p hp => hsan p (List.mem_cons_of_mem _ hp)) h
        cases rest with
        | nil =>
          rw [this, if_pos rfl, hok.1]
        | cons q qs =>
          rw [this, if_neg (by simp)]
          simp

/-- C6 (amended): `ensureFolder` is idempotent for folder paths whose
segments are unchanged by name sanitization: after a first call succeeds,
a second call with the same arguments fetches every segment, creates
nothing (same state returned), does not fail, and returns the item of the
full path. For a segment altered by sanitization the second call instead
fails with a conflict — see the counterexample. -/
theorem ensureFolder_idempotent (s0 s1 : RemoteState) (folderPath : String)
    (item : FolderPath)
    (hsan : ∀ part ∈ splitSegments folderPath, sanitizeNameStr part = part)
    (h1 : ensureFolder s0 folderPath = Except.ok (item, s1)) :
    ensureFolder s1 folderPath = Except.ok (item, s1) := by
  unfold ensureFolder at h1 ⊢
  by_cases hroot : folderPath = "" ∨ folderPath = "/"
  · rw [if_pos hroot] at h1 ⊢
    injection h1 with hpair
    have hi : ([] : FolderPath) = item := congrArg Prod.fst hpair
    have hs : s0 = s1 := congrArg Prod.snd hpair
    rw [← hi]
  · rw [if_neg hroot] at h1 ⊢
    cases hg : ensureFolderGo s0 [] none (splitSegments folderPath) with
    | error e =>
      rw [hg] at h1
      exact absurd h1 (by simp)
    | ok pr =>
      obtain ⟨cur', s'⟩ := pr
      rw [hg] at h1
      cases hparts : splitSegments folderPath with
      | nil =>
        rw [hparts] at hg
        simp only [ensureFolderGo] at hg
        injection hg with hpair
        have hcur : (none : Option FolderPath) = cur' := congrArg Prod.fst hpair
        have hs : s0 = s' := congrArg Prod.snd hpair
        rw [← hcur] at h1
        injection h1 with hpair1
        have hi : ([] : FolderPath) = item := congrArg Prod.fst hpair1
        have hs1' : s' = s1 := congrArg Prod.snd hpair1
        simp only [ensureFolderGo]
        rw [← hi]
      | cons p0 prest =>
        have hnen : splitSegments folderPath ≠ [] := by
          rw [hparts]
          simp
        have hitem := ensureFolderGo_item (splitSegments folderPath) s0 [] none cur' s'
          hsan hg
        rw [if_neg hnen] at hitem
        rw [hitem] at h1
        injection h1 with hpair1
        have hi : ([] : List String) ++ splitSegments folderPath = item :=
          congrArg Prod.fst hpair1
        have hs1' : s' = s1 := congrArg Prod.snd hpair1
        have hmat := ensureFolderGo_materializes (splitSegments folderPath) s0 [] none
          cur' s' hsan hg
        rw [hs1'] at hmat
        have hclean := ensureFolderGo_clean (splitSegments folderPath) s1 [] none
          (fun ps hps hne => hmat ps hps hne)
        rw [hparts] at hclean hi
        rw [if_neg (by simp)] at hclean
        rw [hclean, ← hi]

/-- Witness for C6 (amended): the clean two-segment path "docs/reports" is
created once and the second call returns the same item and state. -/
theorem ensureFolder_idempotent_witness :
    ensureFolder { folders := [["docs"], ["docs", "reports"]] } ("docs/reports") =
      Except.ok (["docs", "reports"],
        { folders := [["docs"], ["docs", "reports"]] }) :=
  ensureFolder_idempotent { folders := [] }
    { folders := [["docs"], ["docs", "reports"]] } ("docs/reports")
    ["docs", "reports"] (by decide) (by rfl)

end UnoCloud
